import Mathlib

/-!
Verification of the Skywalker ensemble library (`src/src/skywalker.c`, the
final revision in the repository) against its natural-language specification.

Modelling conventions, chosen once for the whole development:

* `sw_real_t` (a C floating-point type) is modelled as `ℚ`.  Every claim
  under study concerns comparisons, `ceil`, index arithmetic and control
  flow, all of which the C code performs exactly on the values exercised
  here; `ℚ` represents those computations exactly and keeps every
  definition decidable.  The one genuinely transcendental operation,
  `pow(10.0, v)` from `math.h`, is kept as an explicit function parameter
  `p10` of the postprocessing pass, so that no statement depends on
  floating-point numerics (a concrete instance agreeing with `pow` on the
  integer inputs used in witnesses is given below as `pow10`).

* C strings are modelled as `List Char`.

* The `khash` string-keyed hash tables are modelled as association lists
  in insertion order.  `khash` iteration order is an implementation detail
  of its hash function; the specification requires only a fixed,
  reproducible order ("stable iteration order over however names were
  collected"), and insertion (first-seen) order is the deterministic order
  this embedding fixes.  `kh_put` on a fresh key appends; `kh_put` on an
  existing key returns the existing slot (`ret == 0`), which `alistSet`
  models by overwriting in place.

* `malloc` failure (`SW_ENSEMBLE_TOO_LARGE`) and file I/O errors are not
  modelled; they concern the host machine, not the algorithms.
-/

namespace Skywalker

/-- Error kinds of `sw_error_code_t` (declared in `skywalker.h`, used
throughout `skywalker.c`). -/
inductive SwError where
  | invalidSettingsBlock
  | settingsNotFound
  | invalidParamType
  | invalidParamName
  | invalidParamValue
  | invalidEnumeration
  | emptyEnsemble
  | tooManyLatticeParams
  | ensembleTooLarge
  | yamlFileNotFound
  | invalidYaml
  | paramNotFound
  | writeFailure
  deriving DecidableEq, Repr

/-- C strings (parameter and setting names, raw scalar tokens). -/
abbrev SwName := List Char

/-- `sw_real_t`, modelled as `ℚ` (see the header comment). -/
abbrev SwReal := ℚ

/-! ### Association lists: the model of `khash` string-keyed tables -/

/-- `kh_get`: look a key up. -/
def alistGet {α : Type} : List (SwName × α) → SwName → Option α
  | [], _ => none
  | (k, v) :: rest, k' => if k = k' then some v else alistGet rest k'

/-- `kh_put` followed by `kh_value(...) = v`: overwrite in place if the key
is present (`ret == 0`), append otherwise (`ret == 1`). -/
def alistSet {α : Type} : List (SwName × α) → SwName → α → List (SwName × α)
  | [], k, v => [(k, v)]
  | (k', v') :: rest, k, v =>
      if k' = k then (k, v) :: rest else (k', v') :: alistSet rest k v

theorem alistGet_alistSet_self {α : Type} (m : List (SwName × α)) (k : SwName) (v : α) :
    alistGet (alistSet m k v) k = some v := by
  induction m with
  | nil => simp [alistGet, alistSet]
  | cons e rest ih =>
      by_cases h : e.1 = k
      · simp [alistSet, alistGet, h]
      · simp [alistSet, alistGet, h, ih]

theorem alistGet_alistSet_ne {α : Type} (m : List (SwName × α)) (k k' : SwName) (v : α)
    (h : k ≠ k') : alistGet (alistSet m k v) k' = alistGet m k' := by
  induction m with
  | nil => simp [alistGet, alistSet, h]
  | cons e rest ih =>
      by_cases he : e.1 = k
      · simp [alistSet, alistGet, he, h]
      · simp [alistSet, alistGet, he, ih]

/-! ### Input records (`struct sw_input_t`) -/

/-- `struct sw_input_t`: two separate tables, one for scalar parameters
(`params`) and one for array parameters (`array_params`). -/
structure SwInput where
  params : List (SwName × SwReal)
  array_params : List (SwName × List SwReal)
  deriving DecidableEq, Repr

/-- `sw_input_set`.  (The C code asserts that the key is fresh; every
internal caller passes names unique within the record, where the
assertion holds and `kh_put` appends.) -/
def swInputSet (i : SwInput) (n : SwName) (v : SwReal) : SwInput :=
  { i with params := alistSet i.params n v }

/-- `sw_input_set_array` (the C code copies the value array; values are
immutable here, so the copy is the value itself). -/
def swInputSetArray (i : SwInput) (n : SwName) (vs : List SwReal) : SwInput :=
  { i with array_params := alistSet i.array_params n vs }

/-- `sw_input_has`: consults only the scalar table. -/
def swInputHas (i : SwInput) (n : SwName) : Bool :=
  (alistGet i.params n).isSome

/-- `sw_input_get`: consults only the scalar table; absent names produce
`SW_PARAM_NOT_FOUND`. -/
def swInputGet (i : SwInput) (n : SwName) : Except SwError SwReal :=
  match alistGet i.params n with
  | some v => .ok v
  | none => .error .paramNotFound

/-- `sw_input_has_array`: consults only the array table. -/
def swInputHasArray (i : SwInput) (n : SwName) : Bool :=
  (alistGet i.array_params n).isSome

/-- `sw_input_get_array`: consults only the array table. -/
def swInputGetArray (i : SwInput) (n : SwName) : Except SwError (List SwReal) :=
  match alistGet i.array_params n with
  | some vs => .ok vs
  | none => .error .paramNotFound

/-! ### Output records (`struct sw_output_t`) -/

/-- `struct sw_output_t`. -/
structure SwOutput where
  metrics : List (SwName × SwReal)
  array_metrics : List (SwName × List SwReal)
  deriving DecidableEq, Repr

/-- `sw_output_set`.  The C body is `kh_put(..., n, &ret); assert(ret == 1);
kh_value(...) = value;`.  `kh_put` returns `ret == 0` when a key equal to
`n` is already present, so the assertion fails — an abort — exactly when
the name was set before; `none` models that failed assertion.  (Only with
assertions compiled out does the write degenerate to an overwrite.) -/
def swOutputSet (o : SwOutput) (n : SwName) (v : SwReal) : Option SwOutput :=
  if (alistGet o.metrics n).isNone then
    some { o with metrics := alistSet o.metrics n v }
  else
    none

/-- `sw_output_set_array`, with the same `assert(ret == 1)` as
`sw_output_set`. -/
def swOutputSetArray (o : SwOutput) (n : SwName) (vs : List SwReal) : Option SwOutput :=
  if (alistGet o.array_metrics n).isNone then
    some { o with array_metrics := alistSet o.array_metrics n vs }
  else
    none

/-! ### The ensemble container (`struct sw_ensemble_t`) -/

/-- `struct sw_ensemble_t` (the settings table plays no role in the claims
about iteration and is omitted from the container model). -/
structure SwEnsemble where
  size : Nat
  position : Nat
  inputs : List SwInput
  outputs : List SwOutput
  deriving DecidableEq, Repr

/-- `sw_ensemble_size`. -/
def swEnsembleSize (e : SwEnsemble) : Nat := e.size

/-- `sw_ensemble_next`: past the end it resets `position` to 0 and reports
`false` (modelled as `none`); otherwise it hands out the pair at
`position` and advances. -/
def swEnsembleNext (e : SwEnsemble) : SwEnsemble × Option (SwInput × SwOutput) :=
  if e.size ≤ e.position then
    ({ e with position := 0 }, none)
  else
    ({ e with position := e.position + 1 },
     some (e.inputs.getD e.position ⟨[], []⟩, e.outputs.getD e.position ⟨[], []⟩))

/-- `k` successive calls to `sw_ensemble_next`, collecting each call's
result in order. -/
def runNext (e : SwEnsemble) : Nat → SwEnsemble × List (Option (SwInput × SwOutput))
  | 0 => (e, [])
  | k + 1 =>
      let s := swEnsembleNext e
      let r := runNext s.1 k
      (r.1, s.2 :: r.2)

theorem runNext_add (a b : Nat) (e : SwEnsemble) :
    runNext e (a + b) = ((runNext (runNext e a).1 b).1,
      (runNext e a).2 ++ (runNext (runNext e a).1 b).2) := by
  induction a generalizing e with
  | zero => simp [runNext]
  | succ a ih =>
      have : a + 1 + b = (a + b) + 1 := by omega
      rw [this]
      simp [runNext, ih]

theorem runNext_to_end (e : SwEnsemble)
    (hi : e.inputs.length = e.size) (ho : e.outputs.length = e.size)
    (k : Nat) (hk : e.position + k = e.size) :
    runNext e k = ({ e with position := e.size },
      ((e.inputs.drop e.position).zip (e.outputs.drop e.position)).map some) := by
  induction k generalizing e with
  | zero =>
      have hp : e.position = e.size := by omega
      have h1 : e.inputs.drop e.position = [] := by
        apply List.drop_eq_nil_of_le; omega
      have h2 : e.outputs.drop e.position = [] := by
        apply List.drop_eq_nil_of_le; omega
      have he : ({ e with position := e.size } : SwEnsemble) = e := by
        cases e; simp_all
      simp [runNext, h1, h2, he]
  | succ k ih =>
      have hp : e.position < e.size := by omega
      have hlt : ¬ e.size ≤ e.position := by omega
      have hpi : e.position < e.inputs.length := by omega
      have hpo : e.position < e.outputs.length := by omega
      have hgi : e.inputs.getD e.position ⟨[], []⟩ = e.inputs[e.position] :=
        List.getD_eq_getElem e.inputs ⟨[], []⟩ hpi
      have hgo : e.outputs.getD e.position ⟨[], []⟩ = e.outputs[e.position] :=
        List.getD_eq_getElem e.outputs ⟨[], []⟩ hpo
      have hstep : swEnsembleNext e = ({ e with position := e.position + 1 },
          some (e.inputs[e.position], e.outputs[e.position])) := by
        rw [swEnsembleNext, if_neg hlt, hgi, hgo]
      have ihe := ih { e with position := e.position + 1 } hi ho (by simp; omega)
      simp only [runNext, hstep, ihe]
      have hdi : e.inputs.drop e.position =
          e.inputs[e.position] :: e.inputs.drop (e.position + 1) :=
        List.drop_eq_getElem_cons hpi
      have hdo : e.outputs.drop e.position =
          e.outputs[e.position] :: e.outputs.drop (e.position + 1) :=
        List.drop_eq_getElem_cons hpo
      rw [hdi, hdo]
      simp only [List.zip_cons_cons, List.map_cons]

/-- C8: on an ensemble of size N whose cursor is at the start, the first N
calls to `sw_ensemble_next` yield exactly the (input, output) pairs in
record order, call N+1 yields `none` and returns the container to its
initial state (cursor reset to the start), and a further pass of N+1 calls
repeats the same results. -/
theorem ensemble_next_iterates (e : SwEnsemble) (hp : e.position = 0)
    (hi : e.inputs.length = e.size) (ho : e.outputs.length = e.size) :
    runNext e (e.size + 1) = (e, (e.inputs.zip e.outputs).map some ++ [none])
    ∧ (runNext e (2 * (e.size + 1))).2 =
      ((e.inputs.zip e.outputs).map some ++ [none]) ++
      ((e.inputs.zip e.outputs).map some ++ [none]) := by
  have hrun : runNext e (e.size + 1) = (e, (e.inputs.zip e.outputs).map some ++ [none]) := by
    have h1 := runNext_to_end e hi ho e.size (by omega)
    rw [runNext_add e.size 1 e, h1]
    have hnext : swEnsembleNext { e with position := e.size } =
        ({ e with position := 0 }, none) := by
      simp [swEnsembleNext]
    have he : ({ e with position := 0 } : SwEnsemble) = e := by
      cases e; simp_all
    simp [runNext, hnext, hp, he]
  refine ⟨hrun, ?_⟩
  have h2 : 2 * (e.size + 1) = (e.size + 1) + (e.size + 1) := by omega
  rw [h2, runNext_add, hrun]
  simp [hrun]

/-- Witness for C8: a concrete two-record ensemble traversed twice. -/
theorem ensemble_next_iterates_witness :
    (⟨2, 0, [⟨[(['a'], 1)], []⟩, ⟨[(['a'], 2)], []⟩], [⟨[], []⟩, ⟨[], []⟩]⟩ :
      SwEnsemble).position = 0
    ∧ runNext (⟨2, 0, [⟨[(['a'], 1)], []⟩, ⟨[(['a'], 2)], []⟩],
        [⟨[], []⟩, ⟨[], []⟩]⟩ : SwEnsemble) 3 =
      (⟨2, 0, [⟨[(['a'], 1)], []⟩, ⟨[(['a'], 2)], []⟩], [⟨[], []⟩, ⟨[], []⟩]⟩,
       [some (⟨[(['a'], 1)], []⟩, ⟨[], []⟩), some (⟨[(['a'], 2)], []⟩, ⟨[], []⟩), none]) := by
  constructor
  · rfl
  · have h := (ensemble_next_iterates
      ⟨2, 0, [⟨[(['a'], 1)], []⟩, ⟨[(['a'], 2)], []⟩], [⟨[], []⟩, ⟨[], []⟩]⟩
      rfl rfl rfl).1
    simpa using h

/-- C10: scalar and array input parameters live in two separate tables:
`has`/`get` consult only the scalar table and `has_array`/`get_array`
consult only the array table, so a name present in exactly one of the two
tables is reported absent (with `SW_PARAM_NOT_FOUND` from the getter) by
the other pair of operations. -/
theorem input_tables_disjoint (i : SwInput) (n : SwName) :
    (alistGet i.params n = none →
      swInputHas i n = false ∧ swInputGet i n = .error .paramNotFound)
    ∧ (alistGet i.array_params n = none →
      swInputHasArray i n = false ∧ swInputGetArray i n = .error .paramNotFound)
    ∧ (∀ v, alistGet i.params n = some v →
      swInputHas i n = true ∧ swInputGet i n = .ok v)
    ∧ (∀ vs, alistGet i.array_params n = some vs →
      swInputHasArray i n = true ∧ swInputGetArray i n = .ok vs) := by
  refine ⟨fun h => ?_, fun h => ?_, fun v h => ?_, fun vs h => ?_⟩
  · simp [swInputHas, swInputGet, h]
  · simp [swInputHasArray, swInputGetArray, h]
  · simp [swInputHas, swInputGet, h]
  · simp [swInputHasArray, swInputGetArray, h]

/-- Witness for C10: a record holding only the array parameter `a`; the
scalar operations report it absent while the array operations find it. -/
theorem input_tables_disjoint_witness :
    swInputHas ⟨[], [(['a'], [1, 2])]⟩ ['a'] = false
    ∧ swInputGet ⟨[], [(['a'], [1, 2])]⟩ ['a'] = .error .paramNotFound
    ∧ swInputHasArray ⟨[], [(['a'], [1, 2])]⟩ ['a'] = true
    ∧ swInputGetArray ⟨[], [(['a'], [1, 2])]⟩ ['a'] = .ok [1, 2] := by
  have h := input_tables_disjoint ⟨[], [(['a'], [1, 2])]⟩ ['a']
  exact ⟨(h.1 rfl).1, (h.1 rfl).2, (h.2.2.2 [1, 2] rfl).1, (h.2.2.2 [1, 2] rfl).2⟩

/-- C7: `sw_output_set` hits its failed `assert(ret == 1)` — an abort, not
an overwrite — the second time the same name is set on one output record,
and `sw_output_set_array` does the same; the first write of a fresh name
succeeds.  This contradicts the documented contract ("This operation
cannot fail under normal circumstances", `skywalker.hpp`). -/
theorem output_set_aborts_on_second_set :
    swOutputSet ⟨[], []⟩ ['q'] 1 = some ⟨[(['q'], 1)], []⟩
    ∧ (swOutputSet ⟨[], []⟩ ['q'] 1).bind (fun o => swOutputSet o ['q'] 2) = none
    ∧ swOutputSetArray ⟨[], []⟩ ['q'] [1] = some ⟨[], [(['q'], [1])]⟩
    ∧ (swOutputSetArray ⟨[], []⟩ ['q'] [1]).bind
        (fun o => swOutputSetArray o ['q'] [2]) = none := by
  refine ⟨rfl, ?_, rfl, ?_⟩ <;> rfl

/-! ### The postprocessor (`postprocess_params`) -/

/-- The guard of `postprocess_params` (lines 715–717) deciding whether a
3-value candidate list `[v1, v2, v3]` is range shorthand:
`(v1 < v2) && (((0 < v3) && (v3 < v2)) || ((v2 < 0) && ((0 < v3) && (v3 < (v2 - v1)/2))))`. -/
abbrev rangeGuard (v1 v2 v3 : SwReal) : Prop :=
  v1 < v2 ∧ ((0 < v3 ∧ v3 < v2) ∨ (v2 < 0 ∧ 0 < v3 ∧ v3 < (v2 - v1) / 2))

/-- Modelled from the spec: the range-shorthand guard exactly as the
specification words it — "v0 < v1 and 0 < v2 < v1, OR v0 < v1 ≤ 0 and
0 < v2 < (v1−v0)/2".  Stated only for comparison against `rangeGuard`,
the guard the code implements. -/
abbrev specRangeGuard (v0 v1 v2 : SwReal) : Prop :=
  (v0 < v1 ∧ 0 < v2 ∧ v2 < v1) ∨ (v0 < v1 ∧ v1 ≤ 0 ∧ 0 < v2 ∧ v2 < (v1 - v0) / 2)

/-- The range-expansion pass of `postprocess_params`, per entry: a list of
exactly 3 values passing `rangeGuard` becomes the `(size_t)(ceil((v2-v1)/v3)+1)`
values `v1 + i*v3`; anything else is untouched. -/
def expandThree (vs : List SwReal) : List SwReal :=
  match vs with
  | [v1, v2, v3] =>
      if rangeGuard v1 v2 v3 then
        (List.range (⌈(v2 - v1) / v3⌉ + 1).toNat).map (fun i : ℕ => v1 + (i : ℚ) * v3)
      else [v1, v2, v3]
  | _ => vs

/-- The literal string `"log10("`. -/
def log10Key : SwName := ['l', 'o', 'g', '1', '0', '(']

/-- `strstr(param_name, "log10(") == param_name`: the name starts with
`log10(`. -/
def startsWithLog10 (n : SwName) : Bool := log10Key.isPrefixOf n

/-- The log-decoding pass of `postprocess_params` (lines 730–779): every
name starting with `log10(` must end with `)` (else
`SW_INVALID_PARAM_NAME`, aborting the whole pass), is renamed to the
characters strictly between the parentheses (`memcpy(&name[6], len-7)`),
and its values are mapped through `pow(10.0, ·)` (the parameter `p10`);
other entries are copied unchanged, in iteration order. -/
def renameLog10 (p10 : SwReal → SwReal) :
    List (SwName × List SwReal) → Except SwError (List (SwName × List SwReal))
  | [] => .ok []
  | (n, vs) :: rest =>
      if startsWithLog10 n then
        if n.getLast? ≠ some ')' then .error .invalidParamName
        else
          (renameLog10 p10 rest).map
            (fun r => ((n.drop 6).take (n.length - 7), vs.map p10) :: r)
      else
        (renameLog10 p10 rest).map (fun r => (n, vs) :: r)

/-- `postprocess_params`: range expansion on every entry, then log
decoding.  `p10` is the `pow(10.0, ·)` function from `math.h`. -/
def postprocessParams (p10 : SwReal → SwReal) (m : List (SwName × List SwReal)) :
    Except SwError (List (SwName × List SwReal)) :=
  renameLog10 p10 (m.map (fun e => (e.1, expandThree e.2)))

/-- Model of `pow(10.0, v)` from `math.h`, exact at the integer exponents
exercised in the witnesses below (`pow` is exact there as well);
`postprocessParams` itself is parametric in the exponentiation function. -/
def pow10 (v : SwReal) : SwReal :=
  if v.den = 1 then (10 : ℚ) ^ v.num else 0

theorem renameLog10_wf (p10 : SwReal → SwReal) (m : List (SwName × List SwReal))
    (h : ∀ e ∈ m, startsWithLog10 e.1 = true → e.1.getLast? = some ')') :
    renameLog10 p10 m = .ok (m.map (fun e =>
      if startsWithLog10 e.1 then ((e.1.drop 6).take (e.1.length - 7), e.2.map p10)
      else e)) := by
  induction m with
  | nil => rfl
  | cons e rest ih =>
      obtain ⟨n, vs⟩ := e
      have hrest : ∀ e ∈ rest, startsWithLog10 e.1 = true → e.1.getLast? = some ')' :=
        fun e he => h e (List.mem_cons_of_mem _ he)
      by_cases hn : startsWithLog10 n
      · have hcl : n.getLast? = some ')' := h (n, vs) (List.mem_cons_self _ _) hn
        simp [renameLog10, hn, hcl, ih hrest, Except.map]
      · simp [renameLog10, hn, ih hrest, Except.map]

theorem renameLog10_err (p10 : SwReal → SwReal) (pre post : List (SwName × List SwReal))
    (n : SwName) (vs : List SwReal)
    (hn : startsWithLog10 n = true) (hcl : n.getLast? ≠ some ')')
    (hpre : ∀ e ∈ pre, startsWithLog10 e.1 = true → e.1.getLast? = some ')') :
    renameLog10 p10 (pre ++ (n, vs) :: post) = .error .invalidParamName := by
  induction pre with
  | nil => simp [renameLog10, hn, hcl]
  | cons e rest ih =>
      obtain ⟨en, evs⟩ := e
      have hrest : ∀ x ∈ rest, startsWithLog10 x.1 = true → x.1.getLast? = some ')' :=
        fun x hx => hpre x (List.mem_cons_of_mem _ hx)
      by_cases he : startsWithLog10 en
      · have hecl : en.getLast? = some ')' := hpre (en, evs) (List.mem_cons_self _ _) he
        simp [renameLog10, he, hecl, ih hrest, Except.map]
      · simp [renameLog10, he, ih hrest, Except.map]

/-- C3 as stated is false on the code: the candidate list `[-10, 0, 2]`
satisfies the claim's guard (second disjunct, taking v1 = 0 with the
claimed "v1 ≤ 0"), but the code requires `v2 < 0` strictly, so the list is
left as its three literal values rather than being replaced by the
6-value arithmetic sequence the claim prescribes. -/
theorem range_guard_counterexample :
    specRangeGuard (-10) 0 2
    ∧ expandThree [(-10 : ℚ), 0, 2] = [(-10 : ℚ), 0, 2]
    ∧ expandThree [(-10 : ℚ), 0, 2] ≠ [(-10 : ℚ), -8, -6, -4, -2, 0] := by
  refine ⟨by with_unfolding_all decide, by with_unfolding_all decide,
    by with_unfolding_all decide⟩

/-- C3 amended: a 3-value scalar candidate list `[v0, v1, v2]` is replaced
by the arithmetic sequence `v0, v0+v2, …` of `ceil((v1−v0)/v2)+1` values
exactly when v0 < v1 and either 0 < v2 < v1 or (v1 < 0 strictly and
0 < v2 < (v1−v0)/2); the final value reaches or exceeds v1 (not an
error); a triple failing the guard is left as the 3 literal values; and
`postprocess_params` applies this expansion to every entry of a scalar
lattice or enumerated table (log decoding leaves plainly-named entries
unchanged). -/
theorem range_expansion (v0 v1 v2 : SwReal) :
    (rangeGuard v0 v1 v2 →
      expandThree [v0, v1, v2] =
        (List.range ((⌈(v1 - v0) / v2⌉).toNat + 1)).map (fun i : ℕ => v0 + (i : ℚ) * v2)
      ∧ (expandThree [v0, v1, v2]).length = (⌈(v1 - v0) / v2⌉).toNat + 1
      ∧ v1 ≤ (expandThree [v0, v1, v2]).getD (⌈(v1 - v0) / v2⌉).toNat 0)
    ∧ (¬ rangeGuard v0 v1 v2 → expandThree [v0, v1, v2] = [v0, v1, v2])
    ∧ (∀ (p10 : SwReal → SwReal) (m : List (SwName × List SwReal)),
        (∀ e ∈ m, startsWithLog10 e.1 = false) →
        postprocessParams p10 m = .ok (m.map (fun e => (e.1, expandThree e.2)))) := by
  refine ⟨fun hg => ?_, fun hg => ?_, fun p10 m hm => ?_⟩
  · have hq : 0 < (v1 - v0) / v2 := by
      rcases hg with ⟨h01, h | h⟩
      · exact div_pos (by linarith) h.1
      · exact div_pos (by linarith) h.2.1
    have hceil : 1 ≤ ⌈(v1 - v0) / v2⌉ := by
      have h0 : 0 < ⌈(v1 - v0) / v2⌉ := Int.ceil_pos.mpr hq
      omega
    have htn : (⌈(v1 - v0) / v2⌉ + 1).toNat = (⌈(v1 - v0) / v2⌉).toNat + 1 := by
      omega
    have he : expandThree [v0, v1, v2] =
        (List.range ((⌈(v1 - v0) / v2⌉).toNat + 1)).map (fun i : ℕ => v0 + (i : ℚ) * v2) := by
      rw [expandThree, if_pos hg, htn]
    refine ⟨he, ?_, ?_⟩
    · rw [he]; simp
    · rw [he]
      have hlast : ((List.range ((⌈(v1 - v0) / v2⌉).toNat + 1)).map
          (fun i : ℕ => v0 + (i : ℚ) * v2)).getD (⌈(v1 - v0) / v2⌉).toNat 0 =
          v0 + ((⌈(v1 - v0) / v2⌉).toNat : ℚ) * v2 := by
        rw [List.getD_eq_getElem?_getD, List.getElem?_map,
          List.getElem?_range (Nat.lt_succ_self _)]
        rfl
      rw [hlast]
      have hv2 : 0 < v2 := by
        rcases hg with ⟨h01, h | h⟩
        · exact h.1
        · exact h.2.1
      have hnn : 0 ≤ ⌈(v1 - v0) / v2⌉ := by omega
      have hcast : ((⌈(v1 - v0) / v2⌉).toNat : ℚ) = ((⌈(v1 - v0) / v2⌉ : ℤ) : ℚ) := by
        exact_mod_cast Int.toNat_of_nonneg hnn
      have hmul : (v1 - v0) / v2 * v2 ≤ ((⌈(v1 - v0) / v2⌉ : ℤ) : ℚ) * v2 :=
        mul_le_mul_of_nonneg_right (Int.le_ceil _) (le_of_lt hv2)
      rw [div_mul_cancel₀ _ (ne_of_gt hv2)] at hmul
      rw [hcast]
      linarith
  · rw [expandThree, if_neg hg]
  · rw [postprocessParams, renameLog10_wf]
    · have hid : (m.map (fun e => (e.1, expandThree e.2))).map
          (fun e => if startsWithLog10 e.1 then
            ((e.1.drop 6).take (e.1.length - 7), e.2.map p10) else e) =
          m.map (fun e => (e.1, expandThree e.2)) := by
        rw [List.map_map]
        apply List.map_congr_left
        intro e he
        simp [hm e he]
      rw [hid]
    · intro e he
      rw [List.mem_map] at he
      obtain ⟨a, ha, rfl⟩ := he
      simp [hm a ha]

/-- Witness for the amended C3, on the spec's worked examples: `[0, 10, 2]`
expands to the 6 values `[0,2,4,6,8,10]`, `[0, 10, 3]` expands to the 5
values `[0,3,6,9,12]` whose last value exceeds 10 without error, and a
triple failing the guard stays literal. -/
theorem range_expansion_witness :
    rangeGuard 0 10 2
    ∧ expandThree [(0 : ℚ), 10, 2] =
      (List.range ((⌈((10 : ℚ) - 0) / 2⌉).toNat + 1)).map (fun i : ℕ => 0 + (i : ℚ) * 2)
    ∧ expandThree [(0 : ℚ), 10, 2] = [0, 2, 4, 6, 8, 10]
    ∧ expandThree [(0 : ℚ), 10, 3] = [0, 3, 6, 9, 12]
    ∧ ¬ rangeGuard 1 2 5
    ∧ expandThree [(1 : ℚ), 2, 5] = [1, 2, 5] :=
  ⟨by with_unfolding_all decide,
   ((range_expansion 0 10 2).1 (by with_unfolding_all decide)).1,
   by with_unfolding_all decide, by with_unfolding_all decide,
   by with_unfolding_all decide,
   (range_expansion 1 2 5).2.1 (by with_unfolding_all decide)⟩

/-- C5: a scalar parameter whose name is literally `log10(` ++ X ++ `)` is
renamed to `X` with every candidate value replaced by `pow(10, ·)` of
itself; `postprocess_params` performs this on every (well-formed) entry;
and a name starting with `log10(` whose final character is not `)` aborts
postprocessing with `SW_INVALID_PARAM_NAME`. -/
theorem log10_decoding :
    (∀ (p10 : SwReal → SwReal) (m : List (SwName × List SwReal)),
      (∀ e ∈ m, startsWithLog10 e.1 = true → e.1.getLast? = some ')') →
      postprocessParams p10 m = .ok ((m.map (fun e => (e.1, expandThree e.2))).map
        (fun e => if startsWithLog10 e.1 then
          ((e.1.drop 6).take (e.1.length - 7), e.2.map p10) else e)))
    ∧ (∀ X : SwName,
      ((log10Key ++ X ++ [')']).drop 6).take ((log10Key ++ X ++ [')']).length - 7) = X
      ∧ startsWithLog10 (log10Key ++ X ++ [')']) = true
      ∧ (log10Key ++ X ++ [')']).getLast? = some ')')
    ∧ (∀ (p10 : SwReal → SwReal) (pre post : List (SwName × List SwReal))
        (n : SwName) (vs : List SwReal),
      startsWithLog10 n = true → n.getLast? ≠ some ')' →
      (∀ e ∈ pre, startsWithLog10 e.1 = true → e.1.getLast? = some ')') →
      postprocessParams p10 (pre ++ (n, vs) :: post) = .error .invalidParamName) := by
  refine ⟨fun p10 m h => ?_, fun X => ⟨?_, ?_, ?_⟩, fun p10 pre post n vs hn hcl hpre => ?_⟩
  · rw [postprocessParams, renameLog10_wf]
    intro e he
    rw [List.mem_map] at he
    obtain ⟨a, ha, rfl⟩ := he
    exact h a ha
  · have hlen : (log10Key ++ X ++ [')']).length = X.length + 7 := by
      simp [log10Key]
    have h6 : log10Key.length = 6 := rfl
    have hd : (log10Key ++ X ++ [')']).drop 6 = X ++ [')'] := by
      rw [List.append_assoc, ← h6]
      exact List.drop_left log10Key (X ++ [')'])
    rw [hd, hlen]
    have h7 : X.length + 7 - 7 = X.length := by omega
    rw [h7]
    exact List.take_left X [')']
  · rw [startsWithLog10, List.append_assoc]
    rw [List.isPrefixOf_iff_prefix]
    exact List.prefix_append log10Key (X ++ [')'])
  · exact List.getLast?_concat _
  · rw [postprocessParams, List.map_append, List.map_cons]
    exact renameLog10_err p10
      (pre.map (fun e => (e.1, expandThree e.2)))
      (post.map (fun e => (e.1, expandThree e.2))) n (expandThree vs) hn hcl
      (by
        intro e he
        rw [List.mem_map] at he
        obtain ⟨a, ha, rfl⟩ := he
        exact hpre a ha)

/-- Witness for C5: the parameter `log10(k)` with candidates `[0, 1, 2]`
(which fail the range guard) becomes parameter `k` with values
`[1, 10, 100]`, and the malformed name `log10(k` (no closing parenthesis)
makes postprocessing fail with `SW_INVALID_PARAM_NAME`. -/
theorem log10_decoding_witness :
    postprocessParams pow10 [(log10Key ++ ['k'] ++ [')'], [0, 1, 2])] =
      .ok [(['k'], [1, 10, 100])]
    ∧ postprocessParams pow10 [(log10Key ++ ['k'], [0, 1, 2])] =
      .error .invalidParamName := by
  constructor
  · have h := log10_decoding.1 pow10 [(log10Key ++ ['k'] ++ [')'], [0, 1, 2])]
      (by decide)
    exact h.trans (by with_unfolding_all rfl)
  · have h := log10_decoding.2.2 pow10 [] [] (log10Key ++ ['k']) [0, 1, 2]
      (by decide) (by decide) (by simp)
    simpa using h

/-! ### Parsed YAML data (`yaml_data_t`) and the ensemble builder -/

/-- `yaml_data_t`: the per-group raw value tables populated by the parser
(`settings = none` models the NULL pointer before a settings block is
seen), the name sets used for uniqueness checks, the common enumeration
length, and the first error. -/
structure YamlData where
  settings : Option (List (SwName × SwName))
  fixed_input : List (SwName × List SwReal)
  lattice_input : List (SwName × List SwReal)
  enumerated_input : List (SwName × List SwReal)
  fixed_array_input : List (SwName × List (List SwReal))
  lattice_array_input : List (SwName × List (List SwReal))
  enumerated_array_input : List (SwName × List (List SwReal))
  setting_names : List SwName
  param_names : List SwName
  num_enumerated_inputs : Nat
  error : Option SwError
  deriving DecidableEq, Repr

/-- One iteration of `validate_enumerated_params`: the first entry fixes
`num_inputs`; any later entry of a different length records
`SW_INVALID_ENUMERATION` (without stopping the scan). -/
def validateStep (acc : Nat × Option SwError) (len : Nat) : Nat × Option SwError :=
  if acc.1 = 0 then (len, acc.2)
  else if acc.1 ≠ len then (acc.1, some .invalidEnumeration)
  else acc

/-- `validate_enumerated_params`: scans scalar enumerated entries, then
array enumerated entries. -/
def validateEnumeratedParams (params : List (SwName × List SwReal))
    (array_params : List (SwName × List (List SwReal))) : Nat × Option SwError :=
  array_params.foldl (fun acc e => validateStep acc e.2.length)
    (params.foldl (fun acc e => validateStep acc e.2.length) (0, none))

/-- `assign_fixed_params`: every fixed scalar entry holding exactly one
value is written into the record. -/
def assignFixedParams (d : YamlData) (inp : SwInput) : SwInput :=
  d.fixed_input.foldl
    (fun i e => if e.2.length = 1 then swInputSet i e.1 (e.2.getD 0 0) else i) inp

/-- `assign_fixed_array_params`. -/
def assignFixedArrayParams (d : YamlData) (inp : SwInput) : SwInput :=
  d.fixed_array_input.foldl
    (fun i e => if e.2.length = 1 then swInputSetArray i e.1 (e.2.getD 0 []) else i) inp

/-- The dimensions collected by `assign_lattice_params`: scalar lattice
entries with more than one value, then array lattice entries with more
than one value, stopping once `m` have been gathered (`N < m` in both C
loops). -/
def latticeDims (d : YamlData) (m : Nat) :
    List ((SwName × List SwReal) ⊕ (SwName × List (List SwReal))) :=
  (((d.lattice_input.filter
      (fun e : SwName × List SwReal => 1 < e.2.length)).map Sum.inl) ++
   ((d.lattice_array_input.filter
      (fun e : SwName × List (List SwReal) => 1 < e.2.length)).map Sum.inr)).take m

/-- Cardinality `n[i]` of a collected dimension. -/
def dimLen : (SwName × List SwReal) ⊕ (SwName × List (List SwReal)) → Nat
  | .inl e => e.2.length
  | .inr e => e.2.length

/-- The index-decomposition loop of `assign_lattice_params`, processing
cardinalities from the last dimension backwards: `j[i] = L % n[i]`,
`L /= n[i]` for `i = m-1, …, 1`, and `j[0]` is the remaining quotient.
The input here is the reversed cardinality list. -/
def unravelAux (L : Nat) : List Nat → List Nat
  | [] => []
  | [_] => [L]
  | n :: rest => (L % n) :: unravelAux (L / n) rest

/-- The per-dimension indices `j[0], …, j[m-1]` for lattice index `L` and
cardinalities `ns` (row-major unraveling, exactly the C loop). -/
def unravel (L : Nat) (ns : List Nat) : List Nat :=
  (unravelAux L ns.reverse).reverse

/-- `assign_lattice_params`: collect the varying dimensions, decompose the
lattice index, and write each dimension's selected value into the
record. -/
def assignLatticeParams (d : YamlData) (l m : Nat) (inp : SwInput) : SwInput :=
  ((latticeDims d m).zip (unravel l ((latticeDims d m).map dimLen))).foldl
    (fun i dj =>
      match dj.1 with
      | .inl e => swInputSet i e.1 (e.2.getD dj.2 0)
      | .inr e => swInputSetArray i e.1 (e.2.getD dj.2 [])) inp

/-- `assign_enumerated_params`: every enumerated name receives its value
at position `enum_index` (scalar entries first, then array entries). -/
def assignEnumeratedParams (d : YamlData) (ei : Nat) (inp : SwInput) : SwInput :=
  d.enumerated_array_input.foldl (fun i e => swInputSetArray i e.1 (e.2.getD ei []))
    (d.enumerated_input.foldl (fun i e => swInputSet i e.1 (e.2.getD ei 0)) inp)

/-- `sw_build_result_t`. -/
structure BuildResult where
  num_inputs : Nat
  inputs : List SwInput
  error : Option SwError
  deriving DecidableEq, Repr

/-- Number of fixed parameters counted by `build_ensemble`. -/
def numFixedParams (d : YamlData) : Nat :=
  d.fixed_input.length + d.fixed_array_input.length

/-- Number of lattice parameters counted by `build_ensemble`: every entry
of both lattice tables, regardless of how many candidate values it
holds. -/
def numLatticeParams (d : YamlData) : Nat :=
  d.lattice_input.length + d.lattice_array_input.length

/-- Number of enumerated parameters counted by `build_ensemble`. -/
def numEnumeratedParams (d : YamlData) : Nat :=
  d.enumerated_input.length + d.enumerated_array_input.length

/-- `result.num_inputs` after the lattice loops of `build_ensemble`:
starts at 1 and is multiplied by every lattice entry's candidate count
(scalar entries first, then array entries). -/
def latticeProduct (d : YamlData) : Nat :=
  (d.lattice_array_input.map (fun e => e.2.length)).foldl (· * ·)
    ((d.lattice_input.map (fun e => e.2.length)).foldl (· * ·) 1)

/-- `result.num_inputs` of `build_ensemble`: the lattice product, times
the enumeration length when any enumerated parameter exists. -/
def buildNumInputs (d : YamlData) : Nat :=
  if 0 < numEnumeratedParams d then latticeProduct d * d.num_enumerated_inputs
  else latticeProduct d

/-- The body of the record loop of `build_ensemble` for global index `l`:
fixed values, then lattice values at `lattice_index` (`l` divided by the
enumeration length when one exists), then enumerated values at
`l % num_enumerated_inputs`. -/
def buildRecord (d : YamlData) (l : Nat) : SwInput :=
  let i0 := assignFixedArrayParams d (assignFixedParams d ⟨[], []⟩)
  let i1 := if 0 < numLatticeParams d then
      assignLatticeParams d
        (if 0 < d.num_enumerated_inputs then l / d.num_enumerated_inputs else l)
        (numLatticeParams d) i0
    else i0
  if 0 < numEnumeratedParams d then
    assignEnumeratedParams d (l % d.num_enumerated_inputs) i1
  else i1

/-- `build_ensemble`: zero parameters is an empty ensemble; more than 7
lattice parameters is `SW_TOO_MANY_LATTICE_PARAMS`; otherwise one record
per global index. -/
def buildEnsemble (d : YamlData) : BuildResult :=
  let n := buildNumInputs d
  if numFixedParams d + numLatticeParams d + numEnumeratedParams d = 0 then
    { num_inputs := n, inputs := [], error := some .emptyEnsemble }
  else if 7 < numLatticeParams d then
    { num_inputs := n, inputs := [], error := some .tooManyLatticeParams }
  else
    { num_inputs := n, inputs := (List.range n).map (buildRecord d), error := none }

/-- The ensemble container built by `sw_load_ensemble` on success: the
records, a parallel list of empty output records, and the cursor at the
start. -/
def mkEnsemble (b : BuildResult) : SwEnsemble :=
  { size := b.num_inputs, position := 0, inputs := b.inputs,
    outputs := List.replicate b.num_inputs ⟨[], []⟩ }

theorem buildEnsemble_num_inputs (d : YamlData) :
    (buildEnsemble d).num_inputs = buildNumInputs d := by
  unfold buildEnsemble
  split
  · rfl
  · split <;> rfl

theorem buildEnsemble_ok (d : YamlData)
    (hne : numFixedParams d + numLatticeParams d + numEnumeratedParams d ≠ 0)
    (hcap : numLatticeParams d ≤ 7) :
    buildEnsemble d =
      { num_inputs := buildNumInputs d,
        inputs := (List.range (buildNumInputs d)).map (buildRecord d),
        error := none } := by
  unfold buildEnsemble
  rw [if_neg hne, if_neg (by omega)]

theorem foldl_mul_eq_mul_prod (ns : List Nat) (init : Nat) :
    ns.foldl (· * ·) init = init * ns.prod := by
  induction ns generalizing init with
  | nil => simp
  | cons n rest ih => simp [ih, List.prod_cons]; ring

theorem prod_filter_varying (ns : List Nat) (h : ∀ n ∈ ns, 1 ≤ n) :
    (ns.filter (fun n => 1 < n)).prod = ns.prod := by
  induction ns with
  | nil => simp
  | cons n rest ih =>
      have hrest := ih (fun x hx => h x (List.mem_cons_of_mem _ hx))
      by_cases hn : 1 < n
      · simp [List.filter_cons, hn, hrest]
      · have hn1 : n = 1 := by
          have := h n (List.mem_cons_self _ _)
          omega
        simp [List.filter_cons, hn, hrest, hn1]

/-- C2: a buildable ensemble (some parameter present, at most 7 lattice
names) reports a size equal to the product of the varying-lattice
cardinalities (1 if there is no lattice group) times the enumeration
length (1 if there is no enumerated group); fixed parameters never affect
the count. -/
theorem ensemble_size_product (d : YamlData)
    (hl1 : ∀ e ∈ d.lattice_input, 1 ≤ e.2.length)
    (hl2 : ∀ e ∈ d.lattice_array_input, 1 ≤ e.2.length)
    (hne : numFixedParams d + numLatticeParams d + numEnumeratedParams d ≠ 0)
    (hcap : numLatticeParams d ≤ 7) :
    (buildEnsemble d).error = none
    ∧ swEnsembleSize (mkEnsemble (buildEnsemble d)) =
      (((d.lattice_input.map (fun e => e.2.length)).filter (fun n => 1 < n)).prod *
       ((d.lattice_array_input.map (fun e => e.2.length)).filter (fun n => 1 < n)).prod) *
      (if 0 < numEnumeratedParams d then d.num_enumerated_inputs else 1)
    ∧ (∀ f fa, (buildEnsemble
        { d with fixed_input := f, fixed_array_input := fa }).num_inputs =
        (buildEnsemble d).num_inputs) := by
  refine ⟨by rw [buildEnsemble_ok d hne hcap], ?_, ?_⟩
  · have hsz : swEnsembleSize (mkEnsemble (buildEnsemble d)) = buildNumInputs d := by
      rw [swEnsembleSize, mkEnsemble, buildEnsemble_num_inputs]
    rw [hsz, buildNumInputs, latticeProduct]
    have h1 : ∀ n ∈ d.lattice_input.map (fun e => e.2.length), 1 ≤ n := by
      intro n hn
      rw [List.mem_map] at hn
      obtain ⟨e, he, rfl⟩ := hn
      exact hl1 e he
    have h2 : ∀ n ∈ d.lattice_array_input.map (fun e => e.2.length), 1 ≤ n := by
      intro n hn
      rw [List.mem_map] at hn
      obtain ⟨e, he, rfl⟩ := hn
      exact hl2 e he
    rw [foldl_mul_eq_mul_prod, foldl_mul_eq_mul_prod,
      prod_filter_varying _ h1, prod_filter_varying _ h2]
    by_cases he : 0 < numEnumeratedParams d
    · simp only [he, if_true]; ring
    · simp only [he, if_false]; ring
  · intro f fa
    rw [buildEnsemble_num_inputs, buildEnsemble_num_inputs]
    rfl

/-- Witness for C2: 3 fixed parameters, lattice dimensions of sizes 11 and
2, enumeration length 10 — 220 records and no error. -/
theorem ensemble_size_product_witness :
    (buildEnsemble
      { settings := none,
        fixed_input := [(['f', '1'], [5]), (['f', '2'], [6]), (['f', '3'], [7])],
        lattice_input :=
          [(['a'], [1, 2, 3, 4, 5, 6, 7, 8, 9, 10, 11]), (['b'], [1, 2])],
        enumerated_input := [(['e'], [1, 2, 3, 4, 5, 6, 7, 8, 9, 10])],
        fixed_array_input := [], lattice_array_input := [],
        enumerated_array_input := [],
        setting_names := [], param_names := [],
        num_enumerated_inputs := 10, error := none }).error = none
    ∧ swEnsembleSize (mkEnsemble (buildEnsemble
      { settings := none,
        fixed_input := [(['f', '1'], [5]), (['f', '2'], [6]), (['f', '3'], [7])],
        lattice_input :=
          [(['a'], [1, 2, 3, 4, 5, 6, 7, 8, 9, 10, 11]), (['b'], [1, 2])],
        enumerated_input := [(['e'], [1, 2, 3, 4, 5, 6, 7, 8, 9, 10])],
        fixed_array_input := [], lattice_array_input := [],
        enumerated_array_input := [],
        setting_names := [], param_names := [],
        num_enumerated_inputs := 10, error := none })) = 220 := by
  have h := ensemble_size_product
    { settings := none,
      fixed_input := [(['f', '1'], [5]), (['f', '2'], [6]), (['f', '3'], [7])],
      lattice_input :=
        [(['a'], [1, 2, 3, 4, 5, 6, 7, 8, 9, 10, 11]), (['b'], [1, 2])],
      enumerated_input := [(['e'], [1, 2, 3, 4, 5, 6, 7, 8, 9, 10])],
      fixed_array_input := [], lattice_array_input := [],
      enumerated_array_input := [],
      setting_names := [], param_names := [],
      num_enumerated_inputs := 10, error := none }
    (by decide) (by decide) (by decide) (by decide)
  exact ⟨h.1, h.2.1.trans (by decide)⟩

/-- C6 amended: `build_ensemble` counts every lattice name toward the
7-dimension cap, whether or not it has more than one candidate value: the
`SW_TOO_MANY_LATTICE_PARAMS` error occurs exactly when the total number
of lattice entries (scalar and array) exceeds 7. -/
theorem too_many_lattice_iff (d : YamlData) :
    (buildEnsemble d).error = some .tooManyLatticeParams ↔ 7 < numLatticeParams d := by
  unfold buildEnsemble
  by_cases h0 : numFixedParams d + numLatticeParams d + numEnumeratedParams d = 0
  · have hl : ¬ 7 < numLatticeParams d := by omega
    simp [h0, hl]
  · by_cases h7 : 7 < numLatticeParams d
    · simp [h0, h7]
    · simp [h0, h7]

/-! ### Record indexing (claim C1) -/

theorem getD_range_map {α : Type} (f : Nat → α) (d : α) (n l : Nat) (h : l < n) :
    ((List.range n).map f).getD l d = f l := by
  rw [List.getD_eq_getElem?_getD, List.getElem?_map, List.getElem?_range h]
  rfl

theorem foldl_setArray_params {β : Type} (f : β → SwName) (g : β → List SwReal)
    (ps : List β) (inp : SwInput) :
    (ps.foldl (fun i e => swInputSetArray i (f e) (g e)) inp).params = inp.params := by
  induction ps generalizing inp with
  | nil => rfl
  | cons e rest ih =>
      rw [List.foldl_cons, ih]
      rfl

theorem foldl_set_params {β : Type} (f : β → SwName) (g : β → SwReal)
    (ps : List β) (inp : SwInput) :
    (ps.foldl (fun i e => swInputSet i (f e) (g e)) inp).params =
      (ps.map (fun e => (f e, g e))).foldl (fun mm e => alistSet mm e.1 e.2) inp.params := by
  induction ps generalizing inp with
  | nil => rfl
  | cons e rest ih =>
      rw [List.foldl_cons, List.map_cons, List.foldl_cons, ih]
      rfl

theorem alistGet_foldl_alistSet_notmem {α : Type} (ps : List (SwName × α))
    (m0 : List (SwName × α)) (n : SwName) (h : n ∉ ps.map Prod.fst) :
    alistGet (ps.foldl (fun m e => alistSet m e.1 e.2) m0) n = alistGet m0 n := by
  induction ps generalizing m0 with
  | nil => rfl
  | cons e rest ih =>
      simp only [List.map_cons, List.mem_cons] at h
      push_neg at h
      rw [List.foldl_cons, ih _ h.2, alistGet_alistSet_ne _ _ _ _ (Ne.symm h.1)]

theorem alistGet_foldl_alistSet_mem {α : Type} (ps : List (SwName × α))
    (m0 : List (SwName × α)) (n : SwName) (v : α)
    (hnd : (ps.map Prod.fst).Nodup) (hmem : (n, v) ∈ ps) :
    alistGet (ps.foldl (fun m e => alistSet m e.1 e.2) m0) n = some v := by
  induction ps generalizing m0 with
  | nil => cases hmem
  | cons e rest ih =>
      rw [List.map_cons, List.nodup_cons] at hnd
      rcases List.mem_cons.mp hmem with heq | hmem'
      · subst heq
        rw [List.foldl_cons,
          alistGet_foldl_alistSet_notmem rest _ n hnd.1,
          alistGet_alistSet_self]
      · exact ih _ hnd.2 hmem'

theorem latticeDims_all_varying (d : YamlData) (m : Nat)
    (harr : d.lattice_array_input = [])
    (hvar : ∀ e ∈ d.lattice_input, 1 < e.2.length)
    (hm : d.lattice_input.length ≤ m) :
    latticeDims d m = d.lattice_input.map Sum.inl := by
  rw [latticeDims, harr]
  simp only [List.filter_nil, List.map_nil, List.append_nil]
  rw [List.filter_eq_self.mpr (by intro e he; simpa using hvar e he)]
  exact List.take_of_length_le (by simpa using hm)

theorem unravelAux_length (ns : List Nat) : ∀ L, (unravelAux L ns).length = ns.length := by
  induction ns with
  | nil => intro L; rfl
  | cons n rest ih =>
      intro L
      cases rest with
      | nil => rfl
      | cons m rest' => simpa [unravelAux] using ih (L / n)

theorem unravel_length (L : Nat) (ns : List Nat) : (unravel L ns).length = ns.length := by
  rw [unravel, List.length_reverse, unravelAux_length, List.length_reverse]

theorem foldl_dims_inl_params (li : List (SwName × List SwReal)) (js : List Nat)
    (inp : SwInput) :
    (((li.map Sum.inl).zip js).foldl
      (fun i (dj : ((SwName × List SwReal) ⊕ (SwName × List (List SwReal))) × Nat) =>
        match dj.1 with
        | .inl e => swInputSet i e.1 (e.2.getD dj.2 0)
        | .inr e => swInputSetArray i e.1 (e.2.getD dj.2 [])) inp).params =
      ((li.zip js).map (fun ej => (ej.1.1, ej.1.2.getD ej.2 0))).foldl
        (fun mm e => alistSet mm e.1 e.2) inp.params := by
  induction li generalizing js inp with
  | nil => rfl
  | cons e rest ih =>
      cases js with
      | nil => rfl
      | cons j js' =>
          simp only [List.map_cons, List.zip_cons_cons, List.foldl_cons]
          rw [ih]
          rfl

theorem assignLatticeParams_params_scalar (d : YamlData) (l m : Nat) (inp : SwInput)
    (harr : d.lattice_array_input = [])
    (hvar : ∀ e ∈ d.lattice_input, 1 < e.2.length)
    (hm : d.lattice_input.length ≤ m) :
    (assignLatticeParams d l m inp).params =
      ((d.lattice_input.zip
        (unravel l (d.lattice_input.map (fun e => e.2.length)))).map
        (fun ej => (ej.1.1, ej.1.2.getD ej.2 0))).foldl
        (fun mm e => alistSet mm e.1 e.2) inp.params := by
  have hdims := latticeDims_all_varying d m harr hvar hm
  have hns : (d.lattice_input.map Sum.inl).map dimLen =
      d.lattice_input.map (fun e => e.2.length) := by
    rw [List.map_map]
    rfl
  rw [assignLatticeParams, hdims, hns, foldl_dims_inl_params]

theorem assignEnumeratedParams_params (d : YamlData) (ei : Nat) (inp : SwInput) :
    (assignEnumeratedParams d ei inp).params =
      (d.enumerated_input.map (fun e => (e.1, e.2.getD ei 0))).foldl
        (fun mm e => alistSet mm e.1 e.2) inp.params := by
  rw [assignEnumeratedParams, foldl_setArray_params, foldl_set_params]

/-- C1: in a buildable ensemble whose lattice parameters are all scalar
and all varying, record `l` takes `lattice_index = l / E` and
`enum_index = l % E` (`E` the enumeration length, 1 when there is no
enumerated group), decomposes `lattice_index` row-major
(most-significant dimension first) into per-dimension indices via
`unravel`, and assigns the i-th lattice name its candidate at the i-th
such index and every enumerated name its candidate at `enum_index`. -/
theorem lattice_enum_indexing (d : YamlData) (l : Nat)
    (harr : d.lattice_array_input = [])
    (hvar : ∀ e ∈ d.lattice_input, 1 < e.2.length)
    (hndL : (d.lattice_input.map Prod.fst).Nodup)
    (hndE : (d.enumerated_input.map Prod.fst).Nodup)
    (hdisj : ∀ n ∈ d.lattice_input.map Prod.fst, n ∉ d.enumerated_input.map Prod.fst)
    (hEpos : 0 < numEnumeratedParams d → 0 < d.num_enumerated_inputs)
    (hne : numFixedParams d + numLatticeParams d + numEnumeratedParams d ≠ 0)
    (hcap : numLatticeParams d ≤ 7)
    (hl : l < buildNumInputs d) :
    (buildEnsemble d).error = none
    ∧ (∀ i (hi : i < d.lattice_input.length),
        alistGet ((buildEnsemble d).inputs.getD l ⟨[], []⟩).params
          (d.lattice_input[i]).1 =
        some ((d.lattice_input[i]).2.getD
          ((unravel
            (l / (if 0 < d.num_enumerated_inputs then d.num_enumerated_inputs else 1))
            (d.lattice_input.map (fun e => e.2.length))).getD i 0) 0))
    ∧ (∀ n vs, (n, vs) ∈ d.enumerated_input →
        alistGet ((buildEnsemble d).inputs.getD l ⟨[], []⟩).params n =
        some (vs.getD
          (l % (if 0 < d.num_enumerated_inputs then d.num_enumerated_inputs else 1)) 0)) := by
  have hbe := buildEnsemble_ok d hne hcap
  have hrec : (buildEnsemble d).inputs.getD l ⟨[], []⟩ = buildRecord d l := by
    rw [hbe]
    exact getD_range_map _ _ _ _ hl
  have hlatcount : numLatticeParams d = d.lattice_input.length := by
    rw [numLatticeParams, harr]
    rfl
  refine ⟨by rw [hbe], ?_, ?_⟩
  · intro i hi
    rw [hrec]
    have hlatpos : 0 < numLatticeParams d := by omega
    set E := if 0 < d.num_enumerated_inputs then d.num_enumerated_inputs else 1 with hE
    set latIdx := if 0 < d.num_enumerated_inputs then l / d.num_enumerated_inputs else l
      with hli
    have hlieq : latIdx = l / E := by
      rw [hli, hE]
      by_cases hp : 0 < d.num_enumerated_inputs
      · simp [hp]
      · simp [hp]
    set js := unravel (l / E) (d.lattice_input.map (fun e => e.2.length)) with hjs
    have hjslen : js.length = d.lattice_input.length := by
      rw [hjs, unravel_length, List.length_map]
    set pairs := (d.lattice_input.zip js).map
      (fun ej => (ej.1.1, ej.1.2.getD ej.2 0)) with hpairs
    have hi2 : i < (d.lattice_input.zip js).length := by
      rw [List.length_zip, hjslen]
      omega
    have hij : i < js.length := by omega
    have hmem : ((d.lattice_input[i]).1,
        (d.lattice_input[i]).2.getD (js.getD i 0) 0) ∈ pairs := by
      have hz : (d.lattice_input.zip js)[i] = (d.lattice_input[i], js[i]) :=
        List.getElem_zip
      have hjd : js.getD i 0 = js[i] := List.getD_eq_getElem js 0 hij
      rw [hpairs, hjd]
      have hm1 : (d.lattice_input.zip js)[i] ∈ d.lattice_input.zip js :=
        List.getElem_mem hi2
      rw [hz] at hm1
      exact List.mem_map_of_mem _ hm1
    have hndp : (pairs.map Prod.fst).Nodup := by
      have hfst : pairs.map Prod.fst = d.lattice_input.map Prod.fst := by
        rw [hpairs, List.map_map]
        have h1 : (d.lattice_input.zip js).map
            (Prod.fst ∘ fun ej => (ej.1.1, ej.1.2.getD ej.2 0)) =
            ((d.lattice_input.zip js).map Prod.fst).map Prod.fst := by
          rw [List.map_map]
          rfl
        rw [h1, List.map_fst_zip _ _ (by omega)]
      rw [hfst]
      exact hndL
    have hbase : (buildRecord d l).params =
        pairs.foldl (fun mm e => alistSet mm e.1 e.2)
          (assignFixedArrayParams d (assignFixedParams d ⟨[], []⟩)).params
        ∨ ∃ base, (buildRecord d l).params =
          (d.enumerated_input.map (fun e => (e.1, e.2.getD (l % d.num_enumerated_inputs) 0))).foldl
            (fun mm e => alistSet mm e.1 e.2)
            (pairs.foldl (fun mm e => alistSet mm e.1 e.2) base) := by
      by_cases hen : 0 < numEnumeratedParams d
      · right
        refine ⟨(assignFixedArrayParams d (assignFixedParams d ⟨[], []⟩)).params, ?_⟩
        rw [buildRecord]
        simp only [hen, if_true, hlatpos]
        rw [assignEnumeratedParams_params,
          assignLatticeParams_params_scalar d latIdx (numLatticeParams d) _ harr hvar
            (by omega), hlieq]
      · left
        rw [buildRecord]
        simp only [hen, if_false, hlatpos, if_true]
        rw [assignLatticeParams_params_scalar d latIdx (numLatticeParams d) _ harr hvar
            (by omega), hlieq]
    have hnotenum : (d.lattice_input[i]).1 ∉
        (d.enumerated_input.map
          (fun e => (e.1, e.2.getD (l % d.num_enumerated_inputs) 0))).map Prod.fst := by
      have : (d.enumerated_input.map
          (fun e => (e.1, e.2.getD (l % d.num_enumerated_inputs) 0))).map Prod.fst =
          d.enumerated_input.map Prod.fst := by
        rw [List.map_map]
        rfl
      rw [this]
      exact hdisj _ (List.mem_map_of_mem _ (List.getElem_mem hi))
    rcases hbase with hb | ⟨base, hb⟩
    · rw [hb]
      exact alistGet_foldl_alistSet_mem _ _ _ _ hndp hmem
    · rw [hb, alistGet_foldl_alistSet_notmem _ _ _ hnotenum]
      exact alistGet_foldl_alistSet_mem _ _ _ _ hndp hmem
  · intro n vs hmem
    rw [hrec]
    have hen : 0 < numEnumeratedParams d := by
      rw [numEnumeratedParams]
      have : d.enumerated_input ≠ [] := by
        intro hnil
        rw [hnil] at hmem
        cases hmem
      have := List.length_pos.mpr this
      omega
    have hnum : 0 < d.num_enumerated_inputs := hEpos hen
    have hEeq : (if 0 < d.num_enumerated_inputs then d.num_enumerated_inputs else 1) =
        d.num_enumerated_inputs := by simp [hnum]
    rw [hEeq, buildRecord]
    simp only [hen, if_true]
    rw [assignEnumeratedParams_params]
    have hndp : ((d.enumerated_input.map
        (fun e => (e.1, e.2.getD (l % d.num_enumerated_inputs) 0))).map Prod.fst).Nodup := by
      have : (d.enumerated_input.map
          (fun e => (e.1, e.2.getD (l % d.num_enumerated_inputs) 0))).map Prod.fst =
          d.enumerated_input.map Prod.fst := by
        rw [List.map_map]
        rfl
      rw [this]
      exact hndE
    exact alistGet_foldl_alistSet_mem _ _ _ _ hndp
      (List.mem_map_of_mem _ hmem)

/-! ### Array-parameter postprocessing (`postprocess_array_params`) -/

/-- `INT_MAX`, the sentinel initial value of `size` in
`postprocess_array_params`. -/
def intMax : Nat := 2147483647

/-- Range expansion for one array parameter with exactly 3 candidate
arrays (`postprocess_array_params`, lines 782–835): the common length
check, the per-position minimum expansion count (positions with
non-positive step are skipped; an invalid position with positive step
zeroes the count), and the expansion `a0[l] + i*a2[l]`. -/
def expandArrayThree (avs : List (List SwReal)) : List (List SwReal) :=
  match avs with
  | [a0, a1, a2] =>
      let len0 := if a0.length = a1.length then a0.length else 0
      let len := if len0 = a2.length then len0 else 0
      let triples := if len = 0 then [] else a0.zip (a1.zip a2)
      let size := triples.foldl
        (fun size v =>
          if 0 < v.2.2 then
            if v.1 < v.2.1 ∧ v.2.2 < v.2.1 then
              let s := (⌈(v.2.1 - v.1) / v.2.2⌉ + 1).toNat
              if s < size ∨ size = intMax then s else size
            else 0
          else size) intMax
      if 0 < size ∧ size ≠ intMax then
        (List.range size).map (fun i : ℕ =>
          (a0.zip a2).map (fun v => v.1 + (i : ℚ) * v.2))
      else [a0, a1, a2]
  | _ => avs

/-- `postprocess_array_params`: expansion applied to every entry in
place. -/
def postprocessArrayParams (m : List (SwName × List (List SwReal))) :
    List (SwName × List (List SwReal)) :=
  m.map (fun e => (e.1, expandArrayThree e.2))

/-! ### The YAML event state machine (`handle_yaml_event`) -/

/-- The YAML events `handle_yaml_event` reacts to.  A scalar event
carries its raw text together with the verdict of `strtod` on it
(`none` when the token does not parse as a number): numeric lexing is
the C library's job, so its result travels with the event.  Events of
other types (stream/document delimiters) are ignored by the C handler
and are not represented. -/
inductive YamlEvent where
  | scalar (tok : SwName) (num : Option SwReal)
  | mappingStart
  | mappingEnd
  | sequenceStart
  | sequenceEnd
  deriving DecidableEq, Repr

/-- `parser_state_t`. -/
structure ParserState where
  settings_block : Option SwName
  parsing_settings : Bool
  current_setting : Option SwName
  parsing_input : Bool
  parsing_fixed_params : Bool
  parsing_lattice_params : Bool
  parsing_enumerated_params : Bool
  parsing_input_sequence : Bool
  parsing_input_array_sequence : Bool
  current_param : Option SwName
  deriving DecidableEq, Repr

/-- The zero-initialized parser state (`parser_state_t state =
{.settings_block = settings_block}`). -/
def initState (sb : Option SwName) : ParserState :=
  { settings_block := sb, parsing_settings := false, current_setting := none,
    parsing_input := false, parsing_fixed_params := false,
    parsing_lattice_params := false, parsing_enumerated_params := false,
    parsing_input_sequence := false, parsing_input_array_sequence := false,
    current_param := none }

/-- The freshly initialized `yaml_data_t` of `parse_yaml`. -/
def initData : YamlData :=
  { settings := none, fixed_input := [], lattice_input := [],
    enumerated_input := [], fixed_array_input := [], lattice_array_input := [],
    enumerated_array_input := [], setting_names := [], param_names := [],
    num_enumerated_inputs := 0, error := none }

/-- `strstr(name, "log10(")`: index of the first occurrence of
`"log10("` in `name`, if any. -/
def log10Index (name : SwName) : Option Nat :=
  (List.range name.length).find? (fun s => log10Key.isPrefixOf (name.drop s))

/-- The character loop of `is_valid_input_name` over positions `i ≥ 1`:
alphanumerics and underscores always pass; any other character fails an
array-valued name; `(` opens a `log10(` wrapper when one occurs before
position `i`; `)` passes only once the wrapper is open. -/
def validNameLoop (name : SwName) (is_array_value : Bool) :
    Nat → Bool → List Char → Bool
  | _, _, [] => true
  | i, opened, c :: cs =>
      if c.isAlphanum || c = '_' then validNameLoop name is_array_value (i + 1) opened cs
      else if is_array_value then false
      else if !opened && c = '(' then
        match log10Index name with
        | some s =>
            if s < i then validNameLoop name is_array_value (i + 1) true cs else false
        | none => false
      else if opened && c = ')' then validNameLoop name is_array_value (i + 1) opened cs
      else false

/-- `is_valid_input_name`. -/
def isValidInputName (name : SwName) (is_array_value : Bool) : Bool :=
  match name with
  | [] => false
  | c :: rest =>
      if c.isAlpha || c = '_' then validNameLoop name is_array_value 1 false rest
      else false

/-- `kh_get` / `kh_put` / `kv_push` for a scalar value: append the value to
the name's list, creating the entry first for a new name. -/
def pushScalar (m : List (SwName × List SwReal)) (p : SwName) (v : SwReal) :
    List (SwName × List SwReal) :=
  match alistGet m p with
  | some vs => alistSet m p (vs ++ [v])
  | none => m ++ [(p, [v])]

/-- Append a value to the last inner array of an array parameter
(creating `[[v]]` when the name is new, mirroring the "array of arrays
containing one empty array" initialisation). -/
def pushArrayScalar (m : List (SwName × List (List SwReal))) (p : SwName) (v : SwReal) :
    List (SwName × List (List SwReal)) :=
  match alistGet m p with
  | some arrays => alistSet m p (arrays.dropLast ++ [arrays.getLastD [] ++ [v]])
  | none => m ++ [(p, [[v]])]

/-- On an inner sequence start, append a fresh empty inner array to an
already-seen array parameter; an unseen name is untouched (its first
value will create the entry). -/
def pushNewArray (m : List (SwName × List (List SwReal))) (p : SwName) :
    List (SwName × List (List SwReal)) :=
  match alistGet m p with
  | some arrays => alistSet m p (arrays ++ [[]])
  | none => m

/-- The literal key `"input"`. -/
def inputKw : SwName := ['i', 'n', 'p', 'u', 't']

/-- The literal key `"fixed"`. -/
def fixedKw : SwName := ['f', 'i', 'x', 'e', 'd']

/-- The literal key `"lattice"`. -/
def latticeKw : SwName := ['l', 'a', 't', 't', 'i', 'c', 'e']

/-- The literal key `"enumerated"`. -/
def enumeratedKw : SwName := ['e', 'n', 'u', 'm', 'e', 'r', 'a', 't', 'e', 'd']

/-- `handle_yaml_event` (skywalker.c lines 450–697), one event.  The C
function mutates `state` and `data` in place; here both results are
returned.  Lookups the C performs with a NULL `current_param` (undefined
behaviour, unreachable on well-formed inputs) are modelled as failed
lookups. -/
def handleYamlEvent (ev : YamlEvent) (st : ParserState) (d : YamlData) :
    ParserState × YamlData :=
  match ev with
  | .scalar tok num =>
      if st.parsing_settings = false ∧ st.settings_block ≠ none ∧
          st.settings_block.getD [] ≠ [] ∧ tok = st.settings_block.getD [] then
        ({ st with parsing_settings := true }, { d with settings := some [] })
      else if st.parsing_settings = true then
        match st.current_setting with
        | none =>
            if tok ∈ d.setting_names then
              (st, { d with error := some .invalidSettingsBlock })
            else
              ({ st with current_setting := some tok },
               { d with setting_names := d.setting_names ++ [tok] })
        | some cs =>
            ({ st with current_setting := none },
             { d with settings := some ((d.settings.getD []) ++ [(cs, tok)]) })
      else if st.parsing_input = false ∧ tok = inputKw then
        ({ st with parsing_input := true }, d)
      else if st.parsing_input = true then
        if st.parsing_fixed_params = false ∧ st.parsing_lattice_params = false ∧
            st.parsing_enumerated_params = false then
          if tok = fixedKw then ({ st with parsing_fixed_params := true }, d)
          else if tok = latticeKw then ({ st with parsing_lattice_params := true }, d)
          else if tok = enumeratedKw then
            ({ st with parsing_enumerated_params := true }, d)
          else (st, { d with error := some .invalidParamType })
        else
          match st.current_param with
          | none =>
              if tok ∈ d.param_names then
                (st, { d with error := some .invalidParamName })
              else if isValidInputName tok st.parsing_input_array_sequence = false then
                (st, { d with error := some .invalidParamName })
              else
                ({ st with current_param := some tok },
                 { d with param_names := d.param_names ++ [tok] })
          | some p =>
              match num with
              | none => (st, { d with error := some .invalidParamValue })
              | some rv =>
                  let d' :=
                    if (st.parsing_input_sequence = true ∧
                        st.parsing_fixed_params = true) ∨
                        st.parsing_input_array_sequence = true then
                      if st.parsing_fixed_params = true then
                        { d with fixed_array_input :=
                          pushArrayScalar d.fixed_array_input p rv }
                      else if st.parsing_lattice_params = true then
                        { d with lattice_array_input :=
                          pushArrayScalar d.lattice_array_input p rv }
                      else
                        { d with enumerated_array_input :=
                          pushArrayScalar d.enumerated_array_input p rv }
                    else
                      if st.parsing_fixed_params = true then
                        { d with fixed_input := pushScalar d.fixed_input p rv }
                      else if st.parsing_lattice_params = true then
                        { d with lattice_input := pushScalar d.lattice_input p rv }
                      else
                        { d with enumerated_input :=
                          pushScalar d.enumerated_input p rv }
                  if st.parsing_input_sequence = false then
                    ({ st with current_param := none }, d')
                  else (st, d')
      else (st, d)
  | .mappingStart =>
      if st.current_param ≠ none then (st, { d with error := some .invalidParamValue })
      else (st, d)
  | .mappingEnd =>
      ({ st with
          parsing_fixed_params := false
          parsing_lattice_params := false
          parsing_enumerated_params := false
          parsing_settings := false }, d)
  | .sequenceStart =>
      if st.parsing_input_array_sequence = true then
        (st, { d with error := some .invalidParamValue })
      else if st.parsing_input_sequence = true then
        if st.parsing_fixed_params = true then
          (st, { d with error := some .invalidParamValue })
        else if st.parsing_lattice_params = true then
          ({ st with parsing_input_array_sequence := true },
           { d with lattice_array_input :=
             pushNewArray d.lattice_array_input (st.current_param.getD []) })
        else
          ({ st with parsing_input_array_sequence := true },
           { d with enumerated_array_input :=
             pushNewArray d.enumerated_array_input (st.current_param.getD []) })
      else if st.parsing_input = true then
        ({ st with parsing_input_sequence := true }, d)
      else (st, d)
  | .sequenceEnd =>
      if st.parsing_input_array_sequence = true then
        ({ st with parsing_input_array_sequence := false }, d)
      else if st.parsing_fixed_params = false then
        match (match st.current_param with
               | some p =>
                   ((if st.parsing_lattice_params = true then
                       alistGet d.lattice_input p
                     else alistGet d.enumerated_input p),
                    (if st.parsing_lattice_params = true then
                       alistGet d.lattice_array_input p
                     else alistGet d.enumerated_array_input p))
               | none => (none, none)) with
        | (some vs, _) =>
            if vs.length = 1 then (st, { d with error := some .invalidParamValue })
            else ({ st with parsing_input_sequence := false, current_param := none }, d)
        | (none, some arrays) =>
            if arrays.length = 1 then
              (st, { d with error := some .invalidParamValue })
            else ({ st with parsing_input_sequence := false, current_param := none }, d)
        | (none, none) =>
            ({ st with parsing_input_sequence := false, current_param := none },
             { d with error := some .emptyEnsemble })
      else ({ st with parsing_input_sequence := false, current_param := none }, d)

/-- The event loop of `parse_yaml`: apply `handle_yaml_event` to each
event in order, stopping (as the C loop does) at the first recorded
error. -/
def parseEvents (sb : Option SwName) (evs : List YamlEvent) : ParserState × YamlData :=
  evs.foldl
    (fun acc ev => if acc.2.error ≠ none then acc else handleYamlEvent ev acc.1 acc.2)
    (initState sb, initData)

/-- The tail of `parse_yaml` after the event loop: the settings-block
check, scalar postprocessing of the lattice then enumerated tables,
array postprocessing, and the (unconditional) enumerated-length
validation, whose error overrides an earlier one exactly as the C
assignment does. -/
def parseYaml (sb : Option SwName) (p10 : SwReal → SwReal)
    (evs : List YamlEvent) : YamlData :=
  let d := (parseEvents sb evs).2
  if d.error ≠ none then d
  else if sb ≠ none ∧ sb.getD [] ≠ [] ∧ d.settings = none then
    { d with error := some .settingsNotFound }
  else
    let d1 := match postprocessParams p10 d.lattice_input with
      | .ok m => { d with lattice_input := m }
      | .error e => { d with error := some e }
    let d2 := if d1.error ≠ none then d1 else
      match postprocessParams p10 d1.enumerated_input with
      | .ok m => { d1 with enumerated_input := m }
      | .error e => { d1 with error := some e }
    let d3 := if d2.error ≠ none then d2 else
      { d2 with
          lattice_array_input := postprocessArrayParams d2.lattice_array_input
          enumerated_array_input := postprocessArrayParams d2.enumerated_array_input }
    let ve := validateEnumeratedParams d3.enumerated_input d3.enumerated_array_input
    { d3 with
        num_enumerated_inputs := ve.1
        error := match ve.2 with | some e => some e | none => d3.error }

/-! ### Enumerated-group semantics (claim C4) and supporting lemmas -/

theorem validate_eq_foldl (ps : List (SwName × List SwReal))
    (aps : List (SwName × List (List SwReal))) :
    validateEnumeratedParams ps aps =
      (ps.map (fun e => e.2.length) ++ aps.map (fun e => e.2.length)).foldl
        validateStep (0, none) := by
  rw [validateEnumeratedParams, List.foldl_append, List.foldl_map, List.foldl_map]

theorem validateFold_stable (ls : List Nat) (L : Nat) (_hL : 0 < L)
    (h : ∀ x ∈ ls, x = L) : ls.foldl validateStep (L, none) = (L, none) := by
  induction ls with
  | nil => rfl
  | cons x rest ih =>
      have hx : x = L := h x (List.mem_cons_self _ _)
      have hstep : validateStep (L, none) x = (L, none) := by
        simp [validateStep, hx]
      rw [List.foldl_cons, hstep]
      exact ih (fun z hz => h z (List.mem_cons_of_mem _ hz))

theorem validateFold_err (ls : List Nat) (L : Nat) (_hL : 0 < L) :
    ls.foldl validateStep (L, some SwError.invalidEnumeration) =
      (L, some SwError.invalidEnumeration) := by
  induction ls with
  | nil => rfl
  | cons x rest ih =>
      have hstep : validateStep (L, some SwError.invalidEnumeration) x =
          (L, some SwError.invalidEnumeration) := by
        rw [validateStep]
        simp only [show ¬ (L = 0) by omega, if_false]
        by_cases hx : L = x
        · simp [hx]
        · simp [hx]
      rw [List.foldl_cons, hstep, ih]

theorem validateFold_char (ls : List Nat) (L : Nat) (hL : 0 < L) :
    (ls.foldl validateStep (L, none)).1 = L ∧
    ((ls.foldl validateStep (L, none)).2 = none ↔ ∀ x ∈ ls, x = L) := by
  induction ls with
  | nil => simp
  | cons x rest ih =>
      by_cases hx : x = L
      · have hstep : validateStep (L, none) x = (L, none) := by
          simp [validateStep, hx]
        rw [List.foldl_cons, hstep]
        refine ⟨ih.1, ?_⟩
        rw [ih.2]
        constructor
        · intro hall z hz
          rcases List.mem_cons.mp hz with rfl | hz'
          · exact hx
          · exact hall z hz'
        · intro hall z hz
          exact hall z (List.mem_cons_of_mem _ hz)
      · have hstep : validateStep (L, none) x = (L, some .invalidEnumeration) := by
          have hL0 : ¬ L = 0 := by omega
          have hLx : L ≠ x := fun h => hx h.symm
          simp [validateStep, hL0, hLx]
        rw [List.foldl_cons, hstep, validateFold_err rest L hL]
        refine ⟨rfl, ?_⟩
        simp only [Prod.snd]
        constructor
        · intro h
          cases h
        · intro hall
          exact absurd (hall x (List.mem_cons_self _ _)) hx

theorem validateFold_shape (ls : List Nat) (acc : Nat × Option SwError)
    (h : acc.2 = none ∨ acc.2 = some SwError.invalidEnumeration) :
    (ls.foldl validateStep acc).2 = none ∨
    (ls.foldl validateStep acc).2 = some SwError.invalidEnumeration := by
  induction ls generalizing acc with
  | nil => exact h
  | cons x rest ih =>
      rw [List.foldl_cons]
      apply ih
      rw [validateStep]
      split_ifs <;> simp_all

theorem validateFold_start_char (ls : List Nat) (hpos : ∀ x ∈ ls, 0 < x) :
    ((ls.foldl validateStep (0, none)).2 = none ↔
      ∀ x ∈ ls, ∀ y ∈ ls, x = y) := by
  cases ls with
  | nil => simp
  | cons x rest =>
      have hx : 0 < x := hpos x (List.mem_cons_self _ _)
      have hstep : validateStep (0, none) x = (x, none) := by
        simp [validateStep]
      rw [List.foldl_cons, hstep, (validateFold_char rest x hx).2]
      constructor
      · intro hall
        have h1 : ∀ a ∈ x :: rest, a = x := by
          intro a ha
          rcases List.mem_cons.mp ha with rfl | ha'
          · rfl
          · exact hall a ha'
        intro a ha b hb
        rw [h1 a ha, h1 b hb]
      · intro hpair z hz
        exact hpair z (List.mem_cons_of_mem _ hz) x (List.mem_cons_self _ _)

theorem validateFold_start_eq (ls : List Nat) (L : Nat) (hL : 0 < L)
    (hall : ∀ x ∈ ls, x = L) (hne : ls ≠ []) :
    ls.foldl validateStep (0, none) = (L, none) := by
  cases ls with
  | nil => exact absurd rfl hne
  | cons x rest =>
      have hx : x = L := hall x (List.mem_cons_self _ _)
      have hstep : validateStep (0, none) x = (L, none) := by
        simp [validateStep, hx]
      rw [List.foldl_cons, hstep]
      exact validateFold_stable rest L hL (fun z hz => hall z (List.mem_cons_of_mem _ hz))

theorem enumerated_zip_record (d : YamlData) (l : Nat)
    (hS : d.lattice_input = []) (hA : d.lattice_array_input = [])
    (hndE : (d.enumerated_input.map Prod.fst).Nodup)
    (_hnum : 0 < d.num_enumerated_inputs)
    (hl : l < buildNumInputs d)
    (n : SwName) (vs : List SwReal) (hmem : (n, vs) ∈ d.enumerated_input) :
    alistGet ((buildEnsemble d).inputs.getD l ⟨[], []⟩).params n =
      some (vs.getD l 0) := by
  have hen : 0 < numEnumeratedParams d := by
    rw [numEnumeratedParams]
    have hne : d.enumerated_input ≠ [] := by
      intro hnil
      rw [hnil] at hmem
      cases hmem
    have := List.length_pos.mpr hne
    omega
  have hne : numFixedParams d + numLatticeParams d + numEnumeratedParams d ≠ 0 := by
    omega
  have hlat0 : numLatticeParams d = 0 := by
    rw [numLatticeParams, hS, hA]
    rfl
  have hprod : latticeProduct d = 1 := by
    rw [latticeProduct, hS, hA]
    rfl
  have hE : buildNumInputs d = d.num_enumerated_inputs := by
    rw [buildNumInputs, if_pos hen, hprod, one_mul]
  have hmod : l % d.num_enumerated_inputs = l := Nat.mod_eq_of_lt (by omega)
  have hrec : (buildEnsemble d).inputs.getD l ⟨[], []⟩ = buildRecord d l := by
    rw [buildEnsemble_ok d hne (by omega)]
    exact getD_range_map _ _ _ _ hl
  rw [hrec]
  rw [show buildRecord d l = assignEnumeratedParams d (l % d.num_enumerated_inputs)
      (assignFixedArrayParams d (assignFixedParams d ⟨[], []⟩)) from by
    rw [buildRecord]
    simp [hlat0, hen]]
  rw [assignEnumeratedParams_params, hmod]
  have hndp : ((d.enumerated_input.map
      (fun e => (e.1, e.2.getD l 0))).map Prod.fst).Nodup := by
    have : (d.enumerated_input.map (fun e => (e.1, e.2.getD l 0))).map Prod.fst =
        d.enumerated_input.map Prod.fst := by
      rw [List.map_map]
      rfl
    rw [this]
    exact hndE
  exact alistGet_foldl_alistSet_mem _ _ _ _ hndp (List.mem_map_of_mem _ hmem)

theorem empty_sequence_error (st : ParserState) (d : YamlData) (p : SwName)
    (hfa : st.parsing_input_array_sequence = false)
    (hfx : st.parsing_fixed_params = false)
    (hla : st.parsing_lattice_params = false)
    (hcp : st.current_param = some p)
    (hs : alistGet d.enumerated_input p = none)
    (ha : alistGet d.enumerated_array_input p = none) :
    (handleYamlEvent .sequenceEnd st d).2.error = some .emptyEnsemble := by
  simp [handleYamlEvent, hfa, hfx, hla, hcp, hs, ha]

/-- C4: all enumerated parameters must share one candidate-list length:
`validate_enumerated_params` succeeds with `num_inputs = L` when every
(scalar or array) enumerated entry has the common positive length `L`, it
reports `SW_INVALID_ENUMERATION` whenever two entries' (positive) lengths
differ, record `i` of a purely-enumerated ensemble receives each
enumerated name's value at position `i` (the zip), and a sequence that
closes with no collected values records the `SW_EMPTY_ENSEMBLE` error. -/
theorem enumerated_group_semantics :
    (∀ (ps : List (SwName × List SwReal)) (aps : List (SwName × List (List SwReal)))
       (L : Nat), 0 < L →
       (∀ e ∈ ps, e.2.length = L) → (∀ e ∈ aps, e.2.length = L) →
       ps ++ [] ≠ [] ∨ aps ≠ [] →
       validateEnumeratedParams ps aps = (L, none))
    ∧ (∀ (ps : List (SwName × List SwReal)) (aps : List (SwName × List (List SwReal))),
       (∀ e ∈ ps, 0 < e.2.length) → (∀ e ∈ aps, 0 < e.2.length) →
       ∀ e1 ∈ ps, ∀ e2 ∈ ps, e1.2.length ≠ e2.2.length →
       (validateEnumeratedParams ps aps).2 = some .invalidEnumeration)
    ∧ (∀ (d : YamlData) (l : Nat),
       d.lattice_input = [] → d.lattice_array_input = [] →
       (d.enumerated_input.map Prod.fst).Nodup →
       0 < d.num_enumerated_inputs → l < buildNumInputs d →
       ∀ n vs, (n, vs) ∈ d.enumerated_input →
         alistGet ((buildEnsemble d).inputs.getD l ⟨[], []⟩).params n =
           some (vs.getD l 0))
    ∧ (∀ (st : ParserState) (d : YamlData) (p : SwName),
       st.parsing_input_array_sequence = false →
       st.parsing_fixed_params = false → st.parsing_lattice_params = false →
       st.current_param = some p →
       alistGet d.enumerated_input p = none →
       alistGet d.enumerated_array_input p = none →
       (handleYamlEvent .sequenceEnd st d).2.error = some .emptyEnsemble) := by
  refine ⟨?_, ?_, ?_, ?_⟩
  · intro ps aps L hL hps haps hne
    rw [validate_eq_foldl]
    apply validateFold_start_eq _ L hL
    · intro x hx
      rcases List.mem_append.mp hx with hx' | hx'
      · rw [List.mem_map] at hx'
        obtain ⟨e, he, rfl⟩ := hx'
        exact hps e he
      · rw [List.mem_map] at hx'
        obtain ⟨e, he, rfl⟩ := hx'
        exact haps e he
    · rcases hne with h | h
      · simp only [List.append_nil] at h
        intro hnil
        rw [List.append_eq_nil] at hnil
        exact h (by simpa using congrArg List.length hnil.1)
      · intro hnil
        rw [List.append_eq_nil] at hnil
        exact h (by simpa using congrArg List.length hnil.2)
  · intro ps aps hps haps e1 h1 e2 h2 hlen
    rw [validate_eq_foldl]
    have hpos : ∀ x ∈ ps.map (fun e => e.2.length) ++ aps.map (fun e => e.2.length),
        0 < x := by
      intro x hx
      rcases List.mem_append.mp hx with hx' | hx'
      · rw [List.mem_map] at hx'
        obtain ⟨e, he, rfl⟩ := hx'
        exact hps e he
      · rw [List.mem_map] at hx'
        obtain ⟨e, he, rfl⟩ := hx'
        exact haps e he
    have hchar := validateFold_start_char _ hpos
    have hshape := validateFold_shape
      (ps.map (fun e => e.2.length) ++ aps.map (fun e => e.2.length)) (0, none)
      (Or.inl rfl)
    have hnone : ((ps.map (fun e => e.2.length) ++
        aps.map (fun e => e.2.length)).foldl validateStep (0, none)).2 ≠ none := by
      intro hEq
      rw [hchar] at hEq
      exact hlen (hEq e1.2.length
        (List.mem_append_left _ (List.mem_map_of_mem _ h1)) e2.2.length
        (List.mem_append_left _ (List.mem_map_of_mem _ h2)))
    rcases hshape with h | h
    · exact absurd h hnone
    · exact h
  · exact fun d l hS hA hndE hnum hl n vs hmem =>
      enumerated_zip_record d l hS hA hndE hnum hl n vs hmem
  · exact fun st d p hfa hfx hla hcp hs ha =>
      empty_sequence_error st d p hfa hfx hla hcp hs ha

/-- C9: when a lattice/enumerated scalar parameter's candidate sequence
closes with exactly one collected value, `handle_yaml_event` records
`SW_INVALID_PARAM_VALUE` ("has only a single value") and returns without
touching the parser state, so the load aborts and a successful load never
contains an enumerated parameter declared as a one-element sequence. -/
theorem single_value_sequence_rejected (st : ParserState) (d : YamlData)
    (p : SwName) (vs : List SwReal)
    (hfa : st.parsing_input_array_sequence = false)
    (hfx : st.parsing_fixed_params = false)
    (hla : st.parsing_lattice_params = false)
    (hcp : st.current_param = some p)
    (hget : alistGet d.enumerated_input p = some vs)
    (hlen : vs.length = 1) :
    (handleYamlEvent .sequenceEnd st d).2.error = some .invalidParamValue
    ∧ (handleYamlEvent .sequenceEnd st d).1 = st := by
  constructor <;> simp [handleYamlEvent, hfa, hfx, hla, hcp, hget, hlen]

/-- The event stream of `input:\n  enumerated:\n    x: [1` — up to, but
not including, the sequence end that closes the one-element list. -/
def singleValueEvents : List YamlEvent :=
  [.mappingStart, .scalar inputKw none, .mappingStart, .scalar enumeratedKw none,
   .mappingStart, .scalar ['x'] none, .sequenceStart, .scalar ['1'] (some 1)]

/-- Witness for C9: closing the one-element sequence `x: [1]` of an
enumerated parameter makes the load fail with
`SW_INVALID_PARAM_VALUE`. -/
theorem single_value_sequence_rejected_witness :
    (handleYamlEvent .sequenceEnd (parseEvents none singleValueEvents).1
      (parseEvents none singleValueEvents).2).2.error = some .invalidParamValue
    ∧ (parseEvents none (singleValueEvents ++ [.sequenceEnd])).2.error =
      some .invalidParamValue := by
  constructor
  · exact (single_value_sequence_rejected (parseEvents none singleValueEvents).1
      (parseEvents none singleValueEvents).2 ['x'] [1]
      (by decide) (by decide) (by decide) (by decide) (by decide) (by decide)).1
  · decide

/-- The event stream of an input whose lattice group declares seven
two-valued names `x1..x7` and one single-valued name `x8` (written as a
plain scalar, which the parser accepts without complaint). -/
def capEvents : List YamlEvent :=
  [.mappingStart, .scalar inputKw none, .mappingStart, .scalar latticeKw none,
   .mappingStart,
   .scalar ['x', '1'] none, .sequenceStart, .scalar ['1'] (some 1),
   .scalar ['2'] (some 2), .sequenceEnd,
   .scalar ['x', '2'] none, .sequenceStart, .scalar ['2'] (some 2),
   .scalar ['3'] (some 3), .sequenceEnd,
   .scalar ['x', '3'] none, .sequenceStart, .scalar ['3'] (some 3),
   .scalar ['4'] (some 4), .sequenceEnd,
   .scalar ['x', '4'] none, .sequenceStart, .scalar ['4'] (some 4),
   .scalar ['5'] (some 5), .sequenceEnd,
   .scalar ['x', '5'] none, .sequenceStart, .scalar ['5'] (some 5),
   .scalar ['6'] (some 6), .sequenceEnd,
   .scalar ['x', '6'] none, .sequenceStart, .scalar ['6'] (some 6),
   .scalar ['7'] (some 7), .sequenceEnd,
   .scalar ['x', '7'] none, .sequenceStart, .scalar ['7'] (some 7),
   .scalar ['8'] (some 8), .sequenceEnd,
   .scalar ['x', '8'] none, .scalar ['9'] (some 9),
   .mappingEnd, .mappingEnd, .mappingEnd]

set_option maxRecDepth 8000 in
/-- C6 as stated is false on the code: this input parses cleanly and has
exactly 7 lattice names with more than one candidate value (so the claim
says it must load), yet `build_ensemble` counts the single-candidate name
`x8` as an eighth lattice parameter and fails with
`SW_TOO_MANY_LATTICE_PARAMS`. -/
theorem lattice_cap_counterexample :
    (parseYaml none pow10 capEvents).error = none
    ∧ ((parseYaml none pow10 capEvents).lattice_input.filter
        (fun e => 1 < e.2.length)).length = 7
    ∧ (parseYaml none pow10 capEvents).lattice_array_input = []
    ∧ (buildEnsemble (parseYaml none pow10 capEvents)).error =
      some .tooManyLatticeParams := by
  refine ⟨?_, ?_, ?_, ?_⟩ <;> with_unfolding_all decide

set_option maxRecDepth 8000 in
/-- Witness for the amended C6 at the counterexample input: 8 total
lattice names, hence the too-many-lattice-parameters error. -/
theorem too_many_lattice_iff_witness :
    numLatticeParams (parseYaml none pow10 capEvents) = 8
    ∧ (buildEnsemble (parseYaml none pow10 capEvents)).error =
      some .tooManyLatticeParams :=
  ⟨by with_unfolding_all decide,
   (too_many_lattice_iff (parseYaml none pow10 capEvents)).mpr
     (by with_unfolding_all decide)⟩

/-- The worked example of C1: lattice names `a: [1, 2]` and
`b: [10, 20, 30]`. -/
def exampleLatticeData : YamlData :=
  { settings := none, fixed_input := [],
    lattice_input := [(['a'], [1, 2]), (['b'], [10, 20, 30])],
    enumerated_input := [], fixed_array_input := [], lattice_array_input := [],
    enumerated_array_input := [], setting_names := [],
    param_names := [['a'], ['b']], num_enumerated_inputs := 0, error := none }

/-- Witness for C1: the six records of the worked example appear in
exactly the claimed order, with the last-declared dimension `b` varying
fastest. -/
theorem lattice_enum_indexing_witness :
    (buildEnsemble exampleLatticeData).error = none
    ∧ alistGet ((buildEnsemble exampleLatticeData).inputs.getD 0 ⟨[], []⟩).params
        ['a'] = some 1
    ∧ alistGet ((buildEnsemble exampleLatticeData).inputs.getD 0 ⟨[], []⟩).params
        ['b'] = some 10
    ∧ alistGet ((buildEnsemble exampleLatticeData).inputs.getD 1 ⟨[], []⟩).params
        ['a'] = some 1
    ∧ alistGet ((buildEnsemble exampleLatticeData).inputs.getD 1 ⟨[], []⟩).params
        ['b'] = some 20
    ∧ alistGet ((buildEnsemble exampleLatticeData).inputs.getD 2 ⟨[], []⟩).params
        ['a'] = some 1
    ∧ alistGet ((buildEnsemble exampleLatticeData).inputs.getD 2 ⟨[], []⟩).params
        ['b'] = some 30
    ∧ alistGet ((buildEnsemble exampleLatticeData).inputs.getD 3 ⟨[], []⟩).params
        ['a'] = some 2
    ∧ alistGet ((buildEnsemble exampleLatticeData).inputs.getD 3 ⟨[], []⟩).params
        ['b'] = some 10
    ∧ alistGet ((buildEnsemble exampleLatticeData).inputs.getD 4 ⟨[], []⟩).params
        ['a'] = some 2
    ∧ alistGet ((buildEnsemble exampleLatticeData).inputs.getD 4 ⟨[], []⟩).params
        ['b'] = some 20
    ∧ alistGet ((buildEnsemble exampleLatticeData).inputs.getD 5 ⟨[], []⟩).params
        ['a'] = some 2
    ∧ alistGet ((buildEnsemble exampleLatticeData).inputs.getD 5 ⟨[], []⟩).params
        ['b'] = some 30 := by
  have H := fun (l : Nat) (hl : l < buildNumInputs exampleLatticeData) =>
    lattice_enum_indexing exampleLatticeData l rfl (by decide) (by decide)
      (by decide) (by decide) (by decide) (by decide) (by decide) hl
  refine ⟨(H 0 (by decide)).1, ?_, ?_, ?_, ?_, ?_, ?_, ?_, ?_, ?_, ?_, ?_, ?_⟩
  · exact ((H 0 (by decide)).2.1 0 (by decide)).trans (by with_unfolding_all rfl)
  · exact ((H 0 (by decide)).2.1 1 (by decide)).trans (by with_unfolding_all rfl)
  · exact ((H 1 (by decide)).2.1 0 (by decide)).trans (by with_unfolding_all rfl)
  · exact ((H 1 (by decide)).2.1 1 (by decide)).trans (by with_unfolding_all rfl)
  · exact ((H 2 (by decide)).2.1 0 (by decide)).trans (by with_unfolding_all rfl)
  · exact ((H 2 (by decide)).2.1 1 (by decide)).trans (by with_unfolding_all rfl)
  · exact ((H 3 (by decide)).2.1 0 (by decide)).trans (by with_unfolding_all rfl)
  · exact ((H 3 (by decide)).2.1 1 (by decide)).trans (by with_unfolding_all rfl)
  · exact ((H 4 (by decide)).2.1 0 (by decide)).trans (by with_unfolding_all rfl)
  · exact ((H 4 (by decide)).2.1 1 (by decide)).trans (by with_unfolding_all rfl)
  · exact ((H 5 (by decide)).2.1 0 (by decide)).trans (by with_unfolding_all rfl)
  · exact ((H 5 (by decide)).2.1 1 (by decide)).trans (by with_unfolding_all rfl)

/-- The worked example of C4: enumerated names `x: [1, 2, 3]` and
`y: [4, 5, 6]`. -/
def exampleZipData : YamlData :=
  { settings := none, fixed_input := [], lattice_input := [],
    enumerated_input := [(['x'], [1, 2, 3]), (['y'], [4, 5, 6])],
    fixed_array_input := [], lattice_array_input := [],
    enumerated_array_input := [], setting_names := [],
    param_names := [['x'], ['y']], num_enumerated_inputs := 3, error := none }

/-- The parser state immediately before an enumerated parameter's empty
sequence closes. -/
def emptySeqState : ParserState :=
  { initState none with
      parsing_input := true
      parsing_enumerated_params := true
      parsing_input_sequence := true
      current_param := some ['x'] }

/-- Witness for C4: the zip of `x`/`y`, validation of the common length,
the invalid-enumeration error for `y: [4, 5]`, and the empty-ensemble
error for an empty sequence. -/
theorem enumerated_group_semantics_witness :
    validateEnumeratedParams [(['x'], [1, 2, 3]), (['y'], [4, 5, 6])] [] = (3, none)
    ∧ (validateEnumeratedParams [(['x'], [1, 2, 3]), (['y'], [4, 5])] []).2 =
      some .invalidEnumeration
    ∧ alistGet ((buildEnsemble exampleZipData).inputs.getD 0 ⟨[], []⟩).params
        ['x'] = some 1
    ∧ alistGet ((buildEnsemble exampleZipData).inputs.getD 0 ⟨[], []⟩).params
        ['y'] = some 4
    ∧ alistGet ((buildEnsemble exampleZipData).inputs.getD 1 ⟨[], []⟩).params
        ['x'] = some 2
    ∧ alistGet ((buildEnsemble exampleZipData).inputs.getD 1 ⟨[], []⟩).params
        ['y'] = some 5
    ∧ alistGet ((buildEnsemble exampleZipData).inputs.getD 2 ⟨[], []⟩).params
        ['x'] = some 3
    ∧ alistGet ((buildEnsemble exampleZipData).inputs.getD 2 ⟨[], []⟩).params
        ['y'] = some 6
    ∧ (handleYamlEvent .sequenceEnd emptySeqState initData).2.error =
      some .emptyEnsemble := by
  refine ⟨?_, ?_, ?_, ?_, ?_, ?_, ?_, ?_, ?_⟩
  · exact enumerated_group_semantics.1 [(['x'], [1, 2, 3]), (['y'], [4, 5, 6])] [] 3
      (by decide) (by decide) (by decide) (Or.inl (by decide))
  · exact enumerated_group_semantics.2.1 [(['x'], [1, 2, 3]), (['y'], [4, 5])] []
      (by decide) (by decide) (['x'], [1, 2, 3]) (by decide) (['y'], [4, 5])
      (by decide) (by decide)
  · exact (enumerated_group_semantics.2.2.1 exampleZipData 0 rfl rfl (by decide)
      (by decide) (by decide) ['x'] [1, 2, 3] (by decide)).trans
      (by with_unfolding_all rfl)
  · exact (enumerated_group_semantics.2.2.1 exampleZipData 0 rfl rfl (by decide)
      (by decide) (by decide) ['y'] [4, 5, 6] (by decide)).trans
      (by with_unfolding_all rfl)
  · exact (enumerated_group_semantics.2.2.1 exampleZipData 1 rfl rfl (by decide)
      (by decide) (by decide) ['x'] [1, 2, 3] (by decide)).trans
      (by with_unfolding_all rfl)
  · exact (enumerated_group_semantics.2.2.1 exampleZipData 1 rfl rfl (by decide)
      (by decide) (by decide) ['y'] [4, 5, 6] (by decide)).trans
      (by with_unfolding_all rfl)
  · exact (enumerated_group_semantics.2.2.1 exampleZipData 2 rfl rfl (by decide)
      (by decide) (by decide) ['x'] [1, 2, 3] (by decide)).trans
      (by with_unfolding_all rfl)
  · exact (enumerated_group_semantics.2.2.1 exampleZipData 2 rfl rfl (by decide)
      (by decide) (by decide) ['y'] [4, 5, 6] (by decide)).trans
      (by with_unfolding_all rfl)
  · exact enumerated_group_semantics.2.2.2 emptySeqState initData ['x']
      rfl rfl rfl rfl rfl rfl

end Skywalker
